import Mathlib

/-!
Verification of the ASCII Mandelbrot renderer variants.

The Rust sources are shallowly embedded: `f64` arithmetic is modelled by
exact rationals (`ℚ`), `usize` by `Nat`, strings by `List Char`, and each
variant's interactive loop body by an explicit state-transition function
on the `Config` record.  All definitions are transcribed from the Rust
source files; definitions that follow the specification's wording instead
(for refinement comparisons) carry `spec` in their name.

Variant namespaces:
* `Mandel` — the kernel, glyph mapper, `Config` and sequential renderer
  shared verbatim by the variants;
* `Parallel` — the strided concurrent renderer
  (gpt-5 `mandelbrot_parallel_rendering_full_file.rs`);
* `AddColor` — the colored glyph mapper
  (claude-opus-4.1 `mandelbrot_add_color_search_replace.rs`);
* `Opus4` — the interactive loop of
  claude-opus-4 `mandelbrot_interactive_zooming_full_file.rs`;
* `G5MM` — the interactive loop of
  gpt-5 `mandelbrot_interactive_zooming_morph_multi.rs`;
* `G5SR` — the interactive loop of
  gpt-5 `mandelbrot_interactive_zooming_search_replace.rs`;
* `O3IZ` — the interactive loop of
  gpt-o3 `mandelbrot_interactive_zooming_full_file.rs`;
* `Opus41MM` — the interactive loop of
  claude-opus-4.1 `mandelbrot_interactive_zooming_morph_multi.rs`.
-/

namespace Mandel

/-- Rust `const PALETTE: &[u8] = b" .:-=+*#%@";` — 10 shades, shared verbatim by
the variants that use a fixed palette. -/
def PALETTE : List Char := [' ', '.', ':', '-', '=', '+', '*', '#', '%', '@']

/-- The `Config` struct shared verbatim by all variants: grid dimensions,
plane center, scale, iteration bound.  `f64` fields become `ℚ`. -/
structure Config where
  width : Nat
  height : Nat
  center_x : ℚ
  center_y : ℚ
  scale : ℚ
  iters : Nat
deriving DecidableEq

/-- Rust `Config::default()` — w=80 h=30 cx=-0.5 cy=0.0 scale=3.0 iters=80. -/
def Config.default : Config :=
  { width := 80, height := 30, center_x := -1/2, center_y := 0,
    scale := 3, iters := 80 }

/-- Rust `f64::round`: round half away from zero.  All call sites in the
sources pass non-negative values, where this is `⌊q + 1/2⌋`. -/
def rustRound (q : ℚ) : ℤ :=
  if 0 ≤ q then ⌊q + 1/2⌋ else ⌈q - 1/2⌉

/-- The `while zx*zx + zy*zy <= 4.0 && i < max_iter` loop body of
`mandel_escape`, with the loop counter made explicit. -/
def escapeLoop (cx cy : ℚ) (max_iter : Nat) (zx zy : ℚ) (i : Nat) : Nat :=
  if h : zx * zx + zy * zy ≤ 4 ∧ i < max_iter then
    escapeLoop cx cy max_iter (zx * zx - zy * zy + cx) (2 * zx * zy + cy) (i + 1)
  else
    i
termination_by max_iter - i
decreasing_by
  simp_wf
  omega

/-- Rust `fn mandel_escape(mut zx, mut zy, cx, cy, max_iter) -> usize`, shared
verbatim by every variant. -/
def mandel_escape (zx zy cx cy : ℚ) (max_iter : Nat) : Nat :=
  escapeLoop cx cy max_iter zx zy 0

/-- The index computed inside `shade`:
`(t * (pal.len() as f64 - 1.0)).round() as usize` with `t = it / max_iter`. -/
def shadeIdx (it max_iter len : Nat) : Nat :=
  (rustRound (((it : ℚ) / (max_iter : ℚ)) * ((len : ℚ) - 1))).toNat

/-- Rust `fn shade(it, max_iter) -> char` over the fixed `PALETTE` (the variants
without palette selection).  `PALETTE[idx]` is modelled by `getD`; claim C10
shows the index is always in bounds. -/
def shade (it max_iter : Nat) : Char :=
  if it ≥ max_iter then '@'
  else PALETTE.getD (shadeIdx it max_iter PALETTE.length) ' '

/-- Rust `fn shade(it, max_iter, pal) -> char` from the palette-switch variant:
interior counts return `pal[pal.len() - 1]`. -/
def shadePal (it max_iter : Nat) (pal : List Char) : Char :=
  if it ≥ max_iter then pal.getD (pal.length - 1) ' '
  else pal.getD (shadeIdx it max_iter pal.length) ' '

/-- Rust `let aspect = w / h;` — adjust vertical scale for terminal cells. -/
def aspect (cfg : Config) : ℚ := (cfg.width : ℚ) / (cfg.height : ℚ)

/-- Rust `let u = (x as f64 / (w - 1.0) - 0.5) * cfg.scale + cfg.center_x;` -/
def uCoord (cfg : Config) (x : Nat) : ℚ :=
  ((x : ℚ) / ((cfg.width : ℚ) - 1) - 1/2) * cfg.scale + cfg.center_x

/-- Rust `let v = (y as f64 / (h - 1.0) - 0.5) * cfg.scale / aspect + cfg.center_y;` -/
def vCoord (cfg : Config) (y : Nat) : ℚ :=
  ((y : ℚ) / ((cfg.height : ℚ) - 1) - 1/2) * cfg.scale / aspect cfg + cfg.center_y

/-- One cell of the frame:
`shade(mandel_escape(0.0, 0.0, u, v, cfg.iters), cfg.iters)`. -/
def cellGlyph (cfg : Config) (x y : Nat) : Char :=
  shade (mandel_escape 0 0 (uCoord cfg x) (vCoord cfg y) cfg.iters) cfg.iters

/-- One scanline: the inner `for x in 0..cfg.width` loop followed by
`out.push('\n')`. -/
def renderRow (cfg : Config) (y : Nat) : List Char :=
  (List.range cfg.width).map (fun x => cellGlyph cfg x y) ++ ['\n']

/-- The sequential `fn render(cfg) -> String`: rows appended in increasing
`y` order. -/
def render (cfg : Config) : List Char :=
  ((List.range cfg.height).map (renderRow cfg)).flatten

/-- Modelled from the spec's wording:
`u = (x/(width-1) - 0.5) * scale + center_x`. -/
def specSampleU (cfg : Config) (x : Nat) : ℚ :=
  ((x : ℚ) / ((cfg.width : ℚ) - 1) - 1/2) * cfg.scale + cfg.center_x

/-- Modelled from the spec's wording:
`v = (y/(height-1) - 0.5) * scale / aspect + center_y`, `aspect = width/height`. -/
def specSampleV (cfg : Config) (y : Nat) : ℚ :=
  ((y : ℚ) / ((cfg.height : ℚ) - 1) - 1/2) * cfg.scale /
    ((cfg.width : ℚ) / (cfg.height : ℚ)) + cfg.center_y

end Mandel

namespace AddColor

/-- Rust `const COLORS: &[&str]` from the add_color variant: ANSI color codes,
black (inside set) first. -/
def COLORS : List String :=
  ["\x1b[38;5;232m", "\x1b[38;5;17m", "\x1b[38;5;19m", "\x1b[38;5;21m",
   "\x1b[38;5;51m", "\x1b[38;5;46m", "\x1b[38;5;226m", "\x1b[38;5;208m",
   "\x1b[38;5;196m", "\x1b[38;5;201m"]

/-- Rust `let chars = ['·', '∙', '•', '○', '◉', '◎', '◈', '◆', '◇', '◊'];` -/
def charTable : List Char := ['·', '∙', '•', '○', '◉', '◎', '◈', '◆', '◇', '◊']

/-- Rust `let idx = idx.min(COLORS.len() - 1).max(1);` applied to the rounded
index (skip black for escaped points). -/
def colorIdx (it max_iter : Nat) : Nat :=
  max (min (Mandel.shadeIdx it max_iter COLORS.length) (COLORS.length - 1)) 1

/-- Rust `fn shade(it, max_iter) -> (&'static str, char)` from the add_color
variant: interior counts return `(COLORS[0], '#')`. -/
def shade (it max_iter : Nat) : String × Char :=
  if it ≥ max_iter then (COLORS.getD 0 "", '#')
  else
    let idx := colorIdx it max_iter
    let char_idx := min (idx - 1) (charTable.length - 1)
    (COLORS.getD idx "", charTable.getD char_idx ' ')

end AddColor

namespace Opus4

open Mandel

/-- One iteration of the `main` loop of the claude-opus-4 single-turn
interactive variant, after the three-byte buffer `[0; 3]` has been filled by
`read` (bytes not delivered by a short read stay `0`).  `'q'`/`'Q'` breaks
the loop with the viewport untouched; every unmatched byte falls through to
`_ => {}`. -/
def step (cfg : Config) (buf : Nat × Nat × Nat) : Config :=
  let pan_amount := cfg.scale * (1/10)
  let zoom_factor : ℚ := 3/2
  if buf.1 = 113 ∨ buf.1 = 81 then cfg
  else if buf.1 = 43 ∨ buf.1 = 61 then { cfg with scale := cfg.scale / zoom_factor }
  else if buf.1 = 45 ∨ buf.1 = 95 then { cfg with scale := cfg.scale * zoom_factor }
  else if buf.1 = 27 then
    if buf.2.1 = 91 then
      if buf.2.2 = 65 then { cfg with center_y := cfg.center_y - pan_amount }
      else if buf.2.2 = 66 then { cfg with center_y := cfg.center_y + pan_amount }
      else if buf.2.2 = 67 then { cfg with center_x := cfg.center_x + pan_amount }
      else if buf.2.2 = 68 then { cfg with center_x := cfg.center_x - pan_amount }
      else cfg
    else cfg
  else cfg

end Opus4

namespace G5MM

open Mandel

/-- The `Key` enum of the gpt-5 multi-turn morph variant. -/
inductive Key
  | Up | Down | Left | Right | Plus | Minus | Quit | Other
deriving DecidableEq

/-- The `match read_key { ... }` arms of `interactive_loop`, with
`step_x = cfg.scale * 0.1` and `step_y = (cfg.scale / aspect) * 0.1`
computed from the current viewport.  `Quit` breaks; `Other` (and a read
error) fall through to `_ => {}`. -/
def applyKey (cfg : Config) (k : Key) : Config :=
  let aspect := (cfg.width : ℚ) / (cfg.height : ℚ)
  let step_x := cfg.scale * (1/10)
  let step_y := (cfg.scale / aspect) * (1/10)
  match k with
  | .Quit => cfg
  | .Left => { cfg with center_x := cfg.center_x - step_x }
  | .Right => { cfg with center_x := cfg.center_x + step_x }
  | .Up => { cfg with center_y := cfg.center_y - step_y }
  | .Down => { cfg with center_y := cfg.center_y + step_y }
  | .Plus => { cfg with scale := cfg.scale * (4/5) }
  | .Minus => { cfg with scale := cfg.scale * (5/4) }
  | .Other => cfg

/-- Rust `if cfg.scale < 1e-6 { cfg.scale = 1e-6; }` — the epsilon clamp run at
the end of every loop iteration. -/
def clampScale (cfg : Config) : Config :=
  if cfg.scale < 1/1000000 then { cfg with scale := 1/1000000 } else cfg

/-- One full iteration of `interactive_loop`'s command handling: the match
arm followed by the clamp.  On `Quit` the `break` skips the clamp. -/
def stepKey (cfg : Config) (k : Key) : Config :=
  match k with
  | .Quit => cfg
  | k => clampScale (applyKey cfg k)

end G5MM

namespace G5SR

open Mandel

/-- Rust `enum Key { Up, Down, Left, Right, Plus, Minus, Quit, Reset, None }` of
the gpt-5 multi-turn search-replace variant. -/
inductive Key
  | Up | Down | Left | Right | Plus | Minus | Quit | Reset | None
deriving DecidableEq

/-- Rust `fn read_key_raw() -> Key`, reading from the given byte stream: one byte
is read first (a failed `read_exact` yields `None`); on `ESC` two more bytes
are read, and a short or unrecognized sequence yields `None`. -/
def read_key_raw (input : List Nat) : Key :=
  match input with
  | [] => .None
  | b :: rest =>
    if b = 3 then .Quit
    else if b = 43 ∨ b = 61 then .Plus
    else if b = 45 ∨ b = 95 then .Minus
    else if b = 113 ∨ b = 81 then .Quit
    else if b = 114 ∨ b = 82 then .Reset
    else if b = 27 then
      match rest with
      | b1 :: b2 :: _ =>
        if b1 = 91 then
          if b2 = 65 then .Up
          else if b2 = 66 then .Down
          else if b2 = 67 then .Right
          else if b2 = 68 then .Left
          else .None
        else .None
      | _ => .None
    else if b = 104 then .Left
    else if b = 106 then .Down
    else if b = 107 then .Up
    else if b = 108 then .Right
    else .None

/-- The `match key { ... }` arms of `main`'s interaction loop.  `Quit`
breaks with the viewport untouched; `Reset` assigns `Config::default()`;
`None` does `continue`. -/
def applyKey (cfg : Config) (k : Key) : Config :=
  match k with
  | .Quit => cfg
  | .Reset => Config.default
  | .Plus => { cfg with scale := cfg.scale * (4/5) }
  | .Minus => { cfg with scale := cfg.scale * (5/4) }
  | .Left => { cfg with center_x := cfg.center_x - (1/10) * cfg.scale }
  | .Right => { cfg with center_x := cfg.center_x + (1/10) * cfg.scale }
  | .Up => { cfg with center_y :=
      cfg.center_y - (1/10) * cfg.scale / ((cfg.width : ℚ) / (cfg.height : ℚ)) }
  | .Down => { cfg with center_y :=
      cfg.center_y + (1/10) * cfg.scale / ((cfg.width : ℚ) / (cfg.height : ℚ)) }
  | .None => cfg

end G5SR

namespace O3IZ

open Mandel

/-- One iteration of the `main` loop of the gpt-o3 single-turn interactive
variant.  `ev` is the byte group consumed in that iteration: one byte, plus
the two bytes `read_exact` pulls inside the `0x1B` arm.  Zoom-in multiplies
`scale` by 0.8; zoom-out divides by 0.8 (the exact reciprocal).  There is
no epsilon clamp. -/
def step (cfg : Config) (ev : List Nat) : Config :=
  match ev with
  | [] => cfg
  | b :: rest =>
    if b = 113 ∨ b = 81 then cfg
    else if b = 43 ∨ b = 61 then { cfg with scale := cfg.scale * (4/5) }
    else if b = 45 then { cfg with scale := cfg.scale / (4/5) }
    else if b = 27 then
      match rest with
      | b1 :: b2 :: _ =>
        if b1 = 91 then
          if b2 = 65 then { cfg with center_y := cfg.center_y - cfg.scale * (1/10) }
          else if b2 = 66 then { cfg with center_y := cfg.center_y + cfg.scale * (1/10) }
          else if b2 = 67 then { cfg with center_x := cfg.center_x + cfg.scale * (1/10) }
          else if b2 = 68 then { cfg with center_x := cfg.center_x - cfg.scale * (1/10) }
          else cfg
        else cfg
      | _ => cfg
    else cfg

end O3IZ

namespace Opus41MM

open Mandel

/-- One iteration of the `main` loop of the claude-opus-4.1 multi-turn morph
variant.  `initial` is `initial_cfg`, captured right after `parse_args()`;
`ev` is the byte group consumed in the iteration (`ESC` pulls up to two more
bytes from the iterator).  `'r'`/`'R'` assigns `initial_cfg.clone()`. -/
def step (initial cfg : Config) (ev : List Nat) : Config :=
  match ev with
  | [] => cfg
  | b :: rest =>
    if b = 113 ∨ b = 81 then cfg
    else if b = 114 ∨ b = 82 then initial
    else if b = 43 ∨ b = 61 then { cfg with scale := cfg.scale * (4/5) }
    else if b = 45 ∨ b = 95 then { cfg with scale := cfg.scale * (5/4) }
    else if b = 27 then
      match rest with
      | 91 :: arrow :: _ =>
        let pan := cfg.scale * (1/10)
        if arrow = 65 then { cfg with center_y := cfg.center_y - pan / 2 }
        else if arrow = 66 then { cfg with center_y := cfg.center_y + pan / 2 }
        else if arrow = 67 then { cfg with center_x := cfg.center_x + pan }
        else if arrow = 68 then { cfg with center_x := cfg.center_x - pan }
        else cfg
      | _ => cfg
    else cfg

end Opus41MM

namespace Parallel

/-- Rust `(start..stop).step_by(step)`: the strided index sequence walked by the
`for y in (t..cfg_t.height).step_by(threads)` worker loop. -/
def stepRange (start stop step : Nat) : List Nat :=
  if h : start < stop ∧ 0 < step then start :: stepRange (start + step) stop step
  else []
termination_by stop - start
decreasing_by
  simp_wf
  omega

/-- The `(row_index, row_text)` messages worker `t` sends over the channel:
one per row index in `(t..cfg.height).step_by(threads)`, each carrying that
row's rendered text. -/
def workerMsgs (cfg : Mandel.Config) (threads t : Nat) : List (Nat × List Char) :=
  (stepRange t cfg.height threads).map (fun y => (y, Mandel.renderRow cfg y))

/-- Everything the pool of workers `0..threads` sends. -/
def allWorkerMsgs (cfg : Mandel.Config) (threads : Nat) : List (Nat × List Char) :=
  ((List.range threads).map (workerMsgs cfg threads)).flatten

/-- Rust `lines[y] = Some(line);` for one received message. -/
def applyMsg (lines : List (Option (List Char))) (m : Nat × List Char) :
    List (Option (List Char)) :=
  lines.set m.1 (some m.2)

/-- The collector loop:
`let mut lines = vec![None; cfg.height]; for (y, line) in rx { lines[y] = Some(line); }`,
receiving the messages in arrival order `msgs`. -/
def collectLines (cfg : Mandel.Config) (msgs : List (Nat × List Char)) :
    List (Option (List Char)) :=
  msgs.foldl applyMsg (List.replicate cfg.height none)

/-- The reassembly loop:
`for y in 0..cfg.height { if let Some(line) = lines[y].take() { out.push_str(&line); } }`. -/
def assemble (lines : List (Option (List Char))) : List Char :=
  lines.foldl (fun out o => match o with | some line => out ++ line | none => out) []

/-- The concurrent `fn render(cfg) -> String` of the parallel variant, with
the channel's message arrival order made explicit as `msgs`. -/
def renderPar (cfg : Mandel.Config) (msgs : List (Nat × List Char)) : List Char :=
  assemble (collectLines cfg msgs)

end Parallel

/-!
# Theorems
-/

namespace Mandel

/-- Unfolding equation for `escapeLoop` (the loop either runs once more or
stops). -/
theorem escapeLoop_eq (cx cy : ℚ) (max_iter : Nat) (zx zy : ℚ) (i : Nat) :
    escapeLoop cx cy max_iter zx zy i =
      if zx * zx + zy * zy ≤ 4 ∧ i < max_iter then
        escapeLoop cx cy max_iter (zx * zx - zy * zy + cx) (2 * zx * zy + cy) (i + 1)
      else i := by
  rw [escapeLoop]
  split <;> simp_all

/-- If at counter `i` the current point already lies outside the escape
radius, the loop stops at once and returns `i`. -/
theorem escapeLoop_escaped (cx cy : ℚ) (max_iter : Nat) (zx zy : ℚ) (i : Nat)
    (h : 4 < zx * zx + zy * zy) :
    escapeLoop cx cy max_iter zx zy i = i := by
  rw [escapeLoop_eq]
  rw [if_neg]
  intro hc
  exact absurd hc.1 (not_le.mpr h)

theorem renderRow_length (cfg : Config) (y : Nat) :
    (renderRow cfg y).length = cfg.width + 1 := by
  simp [renderRow]

theorem rustRound_of_nonneg {q : ℚ} (h : 0 ≤ q) : rustRound q = ⌊q + 1/2⌋ :=
  if_pos h

theorem rustRound_mono_of_nonneg {a b : ℚ} (h0 : 0 ≤ a) (h : a ≤ b) :
    rustRound a ≤ rustRound b := by
  rw [rustRound_of_nonneg h0, rustRound_of_nonneg (le_trans h0 h)]
  exact Int.floor_le_floor (by linarith)

/-- The rounded palette index stays at most `len - 1` whenever
`count < bound`: `t < 1`, so `t * (len - 1) + 1/2 < len`. -/
theorem shadeIdx_le (len bound c : Nat) (hlen : 1 ≤ len) (hb : 1 ≤ bound)
    (hc : c < bound) : shadeIdx c bound len ≤ len - 1 := by
  have hb' : (0 : ℚ) < (bound : ℚ) := by exact_mod_cast hb
  have ht0 : 0 ≤ (c : ℚ) / (bound : ℚ) := by positivity
  have ht1 : (c : ℚ) / (bound : ℚ) < 1 := by
    rw [div_lt_one hb']
    exact_mod_cast hc
  have hlen' : (0 : ℚ) ≤ (len : ℚ) - 1 := by
    have : (1 : ℚ) ≤ (len : ℚ) := by exact_mod_cast hlen
    linarith
  have hx0 : 0 ≤ (c : ℚ) / (bound : ℚ) * ((len : ℚ) - 1) := mul_nonneg ht0 hlen'
  have hxle : (c : ℚ) / (bound : ℚ) * ((len : ℚ) - 1) ≤ (len : ℚ) - 1 :=
    mul_le_of_le_one_left hlen' (le_of_lt ht1)
  have hfl : rustRound ((c : ℚ) / (bound : ℚ) * ((len : ℚ) - 1)) ≤ (len : ℤ) - 1 := by
    rw [rustRound_of_nonneg hx0]
    have h2 : ⌊(c : ℚ) / (bound : ℚ) * ((len : ℚ) - 1) + 1/2⌋ < (len : ℤ) := by
      rw [Int.floor_lt]
      push_cast
      linarith
    omega
  rw [shadeIdx]
  rw [Int.toNat_le]
  rw [Nat.cast_sub hlen]
  exact_mod_cast hfl

theorem shadeIdx_mono (len bound c1 c2 : Nat) (hlen : 1 ≤ len) (hb : 1 ≤ bound)
    (h : c1 ≤ c2) : shadeIdx c1 bound len ≤ shadeIdx c2 bound len := by
  have hb' : (0 : ℚ) < (bound : ℚ) := by exact_mod_cast hb
  have hlen' : (0 : ℚ) ≤ (len : ℚ) - 1 := by
    have : (1 : ℚ) ≤ (len : ℚ) := by exact_mod_cast hlen
    linarith
  have ht : (c1 : ℚ) / (bound : ℚ) ≤ (c2 : ℚ) / (bound : ℚ) := by
    apply div_le_div_of_nonneg_right ?_ hb'.le
    exact_mod_cast h
  have h0 : 0 ≤ (c1 : ℚ) / (bound : ℚ) * ((len : ℚ) - 1) := by positivity
  exact Int.toNat_le_toNat
    (rustRound_mono_of_nonneg h0 (mul_le_mul_of_nonneg_right ht hlen'))

end Mandel

/-! ## C2 — escape count of points outside the escape radius -/

/-- C2 counterexample: at `(cx, cy) = (3, 0)` (so `cx² + cy² = 9 > 4`) and
`iteration_bound = 1`, the kernel `mandel_escape(0, 0, 3, 0, 1)` returns `1`,
not `0` as the claim states: the loop body `z ← z² + c` runs once (z starts
at 0, and |0|² ≤ 4) before the escape test can see `|c|² > 4`. -/
theorem c2_counterexample :
    Mandel.mandel_escape 0 0 3 0 1 = 1 ∧ Mandel.mandel_escape 0 0 3 0 1 ≠ 0 := by
  constructor
  · rw [Mandel.mandel_escape, Mandel.escapeLoop_eq]
    norm_num
    exact Mandel.escapeLoop_escaped 3 0 1 3 0 1 (by norm_num)
  · rw [Mandel.mandel_escape, Mandel.escapeLoop_eq]
    norm_num
    rw [Mandel.escapeLoop_escaped 3 0 1 3 0 1 (by norm_num)]
    norm_num

/-- C2 (amended): for every point with `cx² + cy² > 4` and every
`iteration_bound ≥ 1`, `mandel_escape(0, 0, cx, cy, iteration_bound)`
returns `1` (immediate escape is reported as count 1, because `z` starts at
`0`, which passes the radius test, and the first iteration sets `z = c`). -/
theorem c2_escape_count_outside_radius (cx cy : ℚ) (n : Nat)
    (hc : 4 < cx * cx + cy * cy) (hn : 1 ≤ n) :
    Mandel.mandel_escape 0 0 cx cy n = 1 := by
  rw [Mandel.mandel_escape, Mandel.escapeLoop_eq]
  rw [if_pos ⟨by norm_num, hn⟩]
  have h1 : (0 : ℚ) * 0 - 0 * 0 + cx = cx := by ring
  have h2 : (2 : ℚ) * 0 * 0 + cy = cy := by ring
  rw [h1, h2]
  exact Mandel.escapeLoop_escaped cx cy n cx cy 1 hc

/-- C2 witness: the amended theorem applied at `(3, 0)` with bound 1. -/
theorem c2_witness :
    (4 : ℚ) < 3 * 3 + 0 * 0 ∧ Mandel.mandel_escape 0 0 3 0 1 = 1 :=
  ⟨by norm_num, c2_escape_count_outside_radius 3 0 1 (by norm_num) (by norm_num)⟩

/-! ## C3 — the renderer samples exactly the spec's aspect-corrected points -/

/-- C3: the frame is the rows joined in increasing `y` order, and the glyph
at cell `(x, y)` is the shade of the escape count of exactly the spec's
sample point `(u, v)`, including the vertical aspect correction. -/
theorem c3_render_samples_spec_points (cfg : Mandel.Config) (x y : Nat)
    (hx : x < cfg.width) (hy : y < cfg.height) :
    Mandel.render cfg = ((List.range cfg.height).map (Mandel.renderRow cfg)).flatten ∧
    (Mandel.renderRow cfg y).getD x ' ' =
      Mandel.shade
        (Mandel.mandel_escape 0 0 (Mandel.specSampleU cfg x) (Mandel.specSampleV cfg y)
          cfg.iters) cfg.iters := by
  refine ⟨rfl, ?_⟩
  have hgl : x < ((List.range cfg.width).map (fun x => Mandel.cellGlyph cfg x y)).length := by
    simpa using hx
  rw [Mandel.renderRow]
  rw [List.getD_eq_getElem?_getD, List.getElem?_append_left hgl]
  rw [List.getElem?_eq_getElem hgl]
  simp [Mandel.cellGlyph, Mandel.uCoord, Mandel.vCoord, Mandel.aspect,
    Mandel.specSampleU, Mandel.specSampleV]

/-- C3 witness: the theorem applied at a concrete 2×2 viewport, cell (1, 0). -/
theorem c3_witness :
    (1 < 2 ∧ 0 < 2) ∧
    (Mandel.render ⟨2, 2, 0, 0, 4, 1⟩ =
      ((List.range 2).map (Mandel.renderRow ⟨2, 2, 0, 0, 4, 1⟩)).flatten ∧
    (Mandel.renderRow ⟨2, 2, 0, 0, 4, 1⟩ 0).getD 1 ' ' =
      Mandel.shade
        (Mandel.mandel_escape 0 0 (Mandel.specSampleU ⟨2, 2, 0, 0, 4, 1⟩ 1)
          (Mandel.specSampleV ⟨2, 2, 0, 0, 4, 1⟩ 0) 1) 1) :=
  ⟨⟨by decide, by decide⟩,
    c3_render_samples_spec_points ⟨2, 2, 0, 0, 4, 1⟩ 1 0 (by decide) (by decide)⟩

/-! ## C10 — the shade index never goes out of bounds -/

/-- C10: for every palette of length ≥ 2, bound ≥ 1 and count < bound, the
index `round((count/bound) * (len - 1))` computed inside `shade`/`shadePal`
is at most `len - 1` (and, being a `Nat`, at least 0), so the unclamped
palette indexing never goes out of bounds. -/
theorem c10_shade_index_in_bounds (pal : List Char) (bound c : Nat)
    (hlen : 2 ≤ pal.length) (hb : 1 ≤ bound) (hc : c < bound) :
    Mandel.shadeIdx c bound pal.length ≤ pal.length - 1 ∧
    Mandel.shadeIdx c bound pal.length < pal.length := by
  have h := Mandel.shadeIdx_le pal.length bound c (by omega) hb hc
  exact ⟨h, by omega⟩

/-- C10 witness: the theorem applied at the 10-glyph `PALETTE`, bound 80,
count 79 (the largest escaping count). -/
theorem c10_witness :
    (2 ≤ Mandel.PALETTE.length ∧ 1 ≤ 80 ∧ 79 < 80) ∧
    (Mandel.shadeIdx 79 80 Mandel.PALETTE.length ≤ Mandel.PALETTE.length - 1 ∧
     Mandel.shadeIdx 79 80 Mandel.PALETTE.length < Mandel.PALETTE.length) :=
  ⟨⟨by decide, by decide, by decide⟩,
    c10_shade_index_in_bounds Mandel.PALETTE 80 79 (by decide) (by decide) (by decide)⟩

/-! ## C4 — glyph mapper monotonicity and interior symbol -/

/-- C4 counterexample: in the add_color variant, the interior symbol returned
for `count ≥ bound` is `(COLORS[0], '#')` — black, the **first** color entry
— and that is not the last palette entry, contradicting the claim that the
interior symbol is the last palette entry. -/
theorem c4_counterexample :
    AddColor.shade 80 80 = (AddColor.COLORS.getD 0 "", '#') ∧
    AddColor.COLORS.getD 0 "" ≠
      AddColor.COLORS.getD (AddColor.COLORS.length - 1) "" := by
  constructor
  · rfl
  · decide

/-- C4 (amended): both glyph mappers are monotonic non-decreasing in `count`
along their palette's ordering for `count < bound`; for `count ≥ bound` the
palette-switch mapper returns the last palette entry, while the add_color
mapper returns its designated interior symbol `(COLORS[0], '#')`, which is
the first color entry, not the last. -/
theorem c4_glyph_monotone_and_interior (pal : List Char) (b c c1 c2 : Nat)
    (hlen : 1 ≤ pal.length) (hb : 1 ≤ b) (hmono : c1 ≤ c2) (hint : b ≤ c) :
    Mandel.shadeIdx c1 b pal.length ≤ Mandel.shadeIdx c2 b pal.length ∧
    Mandel.shadePal c b pal = pal.getD (pal.length - 1) ' ' ∧
    AddColor.colorIdx c1 b ≤ AddColor.colorIdx c2 b ∧
    AddColor.shade c b = (AddColor.COLORS.getD 0 "", '#') := by
  refine ⟨Mandel.shadeIdx_mono pal.length b c1 c2 hlen hb hmono, ?_, ?_, ?_⟩
  · simp [Mandel.shadePal, hint]
  · have h := Mandel.shadeIdx_mono AddColor.COLORS.length b c1 c2 (by decide) hb hmono
    rw [AddColor.colorIdx, AddColor.colorIdx]
    exact max_le_max (min_le_min h le_rfl) le_rfl
  · simp [AddColor.shade, hint]

/-- C4 witness: the amended theorem applied at `PALETTE`, bound 80, interior
count 80, and the escaping counts 10 ≤ 20. -/
theorem c4_witness :
    (1 ≤ Mandel.PALETTE.length ∧ 1 ≤ 80 ∧ 10 ≤ 20 ∧ 80 ≤ 80) ∧
    (Mandel.shadeIdx 10 80 Mandel.PALETTE.length ≤
       Mandel.shadeIdx 20 80 Mandel.PALETTE.length ∧
     Mandel.shadePal 80 80 Mandel.PALETTE =
       Mandel.PALETTE.getD (Mandel.PALETTE.length - 1) ' ' ∧
     AddColor.colorIdx 10 80 ≤ AddColor.colorIdx 20 80 ∧
     AddColor.shade 80 80 = (AddColor.COLORS.getD 0 "", '#')) :=
  ⟨⟨by decide, by decide, by decide, by decide⟩,
    c4_glyph_monotone_and_interior Mandel.PALETTE 80 80 10 20
      (by decide) (by decide) (by decide) (by decide)⟩

/-! ## C5 — zoom round trip with reciprocal factors -/

/-- C5: applying ZoomIn then ZoomOut with reciprocal factors restores
`scale` exactly (in the exact-rational model of `f64`): in the gpt-o3
variant `scale *= 0.8` then `scale /= 0.8` with no clamp, and in the gpt-5
multi-turn variant `scale *= 0.8` then `scale *= 1.25`, provided the
`1e-6` clamp does not trigger on the zoomed-in scale. -/
theorem c5_zoom_round_trip (cfg : Mandel.Config)
    (hclamp : 1/1000000 ≤ cfg.scale * (4/5)) :
    (O3IZ.step (O3IZ.step cfg [43]) [45]).scale = cfg.scale ∧
    (G5MM.stepKey (G5MM.stepKey cfg G5MM.Key.Plus) G5MM.Key.Minus).scale =
      cfg.scale := by
  constructor
  · simp [O3IZ.step]
  · have hs : 1/1000000 ≤ cfg.scale := by linarith
    have heq : cfg.scale * (4/5) * (5/4) = cfg.scale := by ring
    have h1 : G5MM.stepKey cfg G5MM.Key.Plus =
        G5MM.clampScale { cfg with scale := cfg.scale * (4/5) } := rfl
    have h2 : G5MM.clampScale { cfg with scale := cfg.scale * (4/5) } =
        { cfg with scale := cfg.scale * (4/5) } := by
      rw [G5MM.clampScale]
      exact if_neg (not_lt.mpr hclamp)
    have h3 : G5MM.stepKey { cfg with scale := cfg.scale * (4/5) } G5MM.Key.Minus =
        G5MM.clampScale { cfg with scale := cfg.scale * (4/5) * (5/4) } := rfl
    have h4 : G5MM.clampScale { cfg with scale := cfg.scale * (4/5) * (5/4) } =
        { cfg with scale := cfg.scale * (4/5) * (5/4) } := by
      rw [G5MM.clampScale]
      refine if_neg (not_lt.mpr ?_)
      show 1/1000000 ≤ cfg.scale * (4/5) * (5/4)
      rw [heq]
      exact hs
    rw [h1, h2, h3, h4]
    exact heq

/-- C5 witness: the round trip from the default viewport (scale 3). -/
theorem c5_witness :
    (1/1000000 ≤ Mandel.Config.default.scale * (4/5)) ∧
    ((O3IZ.step (O3IZ.step Mandel.Config.default [43]) [45]).scale =
        Mandel.Config.default.scale ∧
     (G5MM.stepKey (G5MM.stepKey Mandel.Config.default G5MM.Key.Plus)
        G5MM.Key.Minus).scale = Mandel.Config.default.scale) :=
  ⟨by norm_num [Mandel.Config.default],
    c5_zoom_round_trip Mandel.Config.default
      (by norm_num [Mandel.Config.default])⟩

/-! ## C6 — scale clamping and positivity -/

/-- Repeated `'+'` commands in the claude-opus-4 variant divide `scale` by
`1.5` each time. -/
theorem opus4_zoomin_scale (n : Nat) (cfg : Mandel.Config) :
    ((List.replicate n ((43 : Nat), (0 : Nat), (0 : Nat))).foldl Opus4.step
        cfg).scale = cfg.scale / (3/2) ^ n := by
  induction n generalizing cfg with
  | zero => simp
  | succ n ih =>
    rw [List.replicate_succ, List.foldl_cons, ih]
    have hstep : (Opus4.step cfg (43, 0, 0)).scale = cfg.scale / (3/2) := rfl
    rw [hstep, div_div, pow_succ]
    ring_nf

/-- C6 counterexample: the claude-opus-4 single-turn interactive variant has
no epsilon clamp: 40 zoom-in commands (`'+'`, `scale /= 1.5`) from the
default viewport drive `scale` to `3·(2/3)⁴⁰ < 10⁻⁶`, below the `1e-6`
epsilon its sibling variant clamps at, so scale is not kept above any such
epsilon there. -/
theorem c6_counterexample :
    ((List.replicate 40 ((43 : Nat), (0 : Nat), (0 : Nat))).foldl Opus4.step
        Mandel.Config.default).scale < 1/1000000 := by
  rw [opus4_zoomin_scale]
  norm_num [Mandel.Config.default]

/-- C6 (amended): in the gpt-5 multi-turn variant every navigation command
(everything except `Quit`, whose `break` skips the clamp) leaves
`scale ≥ 1e-6 > 0`; the claude-opus-4 variant has no clamp, but every
command multiplies `scale` by a positive factor or leaves it unchanged, so
no command sequence can drive `scale` to zero or negative. -/
theorem c6_scale_clamped_or_positive :
    (∀ (cfg : Mandel.Config) (k : G5MM.Key), k ≠ G5MM.Key.Quit →
      1/1000000 ≤ (G5MM.stepKey cfg k).scale) ∧
    (∀ (cfg : Mandel.Config) (bufs : List (Nat × Nat × Nat)), 0 < cfg.scale →
      0 < (bufs.foldl Opus4.step cfg).scale) := by
  have hcl : ∀ c : Mandel.Config, 1/1000000 ≤ (G5MM.clampScale c).scale := by
    intro c
    rw [G5MM.clampScale]
    split
    · exact le_refl _
    · next h => exact not_lt.mp h
  have hpos : ∀ (cfg : Mandel.Config) (buf : Nat × Nat × Nat),
      0 < cfg.scale → 0 < (Opus4.step cfg buf).scale := by
    intro cfg buf h
    simp only [Opus4.step]
    split_ifs <;>
      first
        | exact h
        | exact div_pos h (by norm_num)
        | exact mul_pos h (by norm_num)
  constructor
  · intro cfg k hk
    cases k <;> first | exact absurd rfl hk | exact hcl _
  · intro cfg bufs h
    induction bufs generalizing cfg with
    | nil => exact h
    | cons b bs ih =>
      rw [List.foldl_cons]
      exact ih _ (hpos cfg b h)

/-- C6 witness: the amended theorem applied at the default viewport, with a
zoom-in key and with a one-command sequence. -/
theorem c6_witness :
    (G5MM.Key.Plus ≠ G5MM.Key.Quit ∧ (0 : ℚ) < Mandel.Config.default.scale) ∧
    (1/1000000 ≤ (G5MM.stepKey Mandel.Config.default G5MM.Key.Plus).scale ∧
     0 < (([((43 : Nat), (0 : Nat), (0 : Nat))]).foldl Opus4.step
        Mandel.Config.default).scale) :=
  ⟨⟨by decide, by norm_num [Mandel.Config.default]⟩,
    c6_scale_clamped_or_positive.1 Mandel.Config.default G5MM.Key.Plus (by decide),
    c6_scale_clamped_or_positive.2 Mandel.Config.default
      [((43 : Nat), (0 : Nat), (0 : Nat))] (by norm_num [Mandel.Config.default])⟩

/-! ## C7 — Reset restores the initial configuration -/

/-- C7 counterexample: in the gpt-5 search-replace variant, `Reset` assigns
`Config::default()`, not the configuration captured at session start.  With
the command-line override `w=120`, the empty command sequence followed by
`Reset` yields the built-in default (width 80), not the initial viewport. -/
theorem c7_counterexample :
    ([G5SR.Key.Reset].foldl G5SR.applyKey
        { Mandel.Config.default with width := 120 }) ≠
      { Mandel.Config.default with width := 120 } := by
  decide

/-- C7 (amended): after any sequence of commands, `Reset` restores the
configuration captured at session start (command-line overrides included)
in the claude-opus-4.1 multi-turn variant, which stores `initial_cfg` right
after `parse_args()`; the gpt-5 search-replace variant instead restores the
compiled-in `Config::default()`, discarding overrides — these coincide only
when no overrides were given. -/
theorem c7_reset_restores (initial cfg : Mandel.Config)
    (evs : List (List Nat)) (ks : List G5SR.Key) :
    ((evs ++ [[114]]).foldl (Opus41MM.step initial) cfg) = initial ∧
    ((ks ++ [G5SR.Key.Reset]).foldl G5SR.applyKey cfg) = Mandel.Config.default := by
  constructor
  · rw [List.foldl_append]
    simp [Opus41MM.step]
  · rw [List.foldl_append]
    simp [G5SR.applyKey]

/-! ## C8 — pan amounts -/

/-- C8 counterexample: in the claude-opus-4 single-turn variant, a `PanUp`
(`ESC [ A`) from the default viewport moves `center_y` by the full
`scale * 0.1 = 0.3`, not by the aspect-divided amount
`0.3 / (80/30) = 0.1125` the claim requires. -/
theorem c8_counterexample :
    (Opus4.step Mandel.Config.default (27, 91, 65)).center_y = -(3/10) ∧
    ((-(3/10) : ℚ) ≠ Mandel.Config.default.center_y -
      Mandel.Config.default.scale * (1/10) /
        ((Mandel.Config.default.width : ℚ) / (Mandel.Config.default.height : ℚ))) := by
  constructor
  · norm_num [Opus4.step, Mandel.Config.default]
  · norm_num [Mandel.Config.default]

/-- C8 (amended): every pan moves the center by 10% of the current `scale`.
In the gpt-5 multi-turn variant the vertical amount is additionally divided
by the aspect ratio `width/height`; in the claude-opus-4 single-turn variant
all four pans use the undivided amount `scale * 0.1`. -/
theorem c8_pan_amounts (cfg : Mandel.Config) :
    (G5MM.applyKey cfg G5MM.Key.Up).center_y =
      cfg.center_y - (cfg.scale * (1/10)) / ((cfg.width : ℚ) / (cfg.height : ℚ)) ∧
    (G5MM.applyKey cfg G5MM.Key.Down).center_y =
      cfg.center_y + (cfg.scale * (1/10)) / ((cfg.width : ℚ) / (cfg.height : ℚ)) ∧
    (G5MM.applyKey cfg G5MM.Key.Left).center_x = cfg.center_x - cfg.scale * (1/10) ∧
    (G5MM.applyKey cfg G5MM.Key.Right).center_x = cfg.center_x + cfg.scale * (1/10) ∧
    (Opus4.step cfg (27, 91, 65)).center_y = cfg.center_y - cfg.scale * (1/10) ∧
    (Opus4.step cfg (27, 91, 66)).center_y = cfg.center_y + cfg.scale * (1/10) ∧
    (Opus4.step cfg (27, 91, 67)).center_x = cfg.center_x + cfg.scale * (1/10) ∧
    (Opus4.step cfg (27, 91, 68)).center_x = cfg.center_x - cfg.scale * (1/10) := by
  refine ⟨?_, ?_, ?_, ?_, ?_, ?_, ?_, ?_⟩ <;>
    simp [G5MM.applyKey, Opus4.step] <;> ring

/-! ## C9 — unrecognized or truncated input is a no-op -/

/-- C9: unrecognized bytes and truncated or unrecognized escape sequences
decode to a no-op in both cited variants: the claude-opus-4 buffer decoder
leaves every `Config` field unchanged, and the gpt-5 search-replace
`read_key_raw` returns `Key::None` (whose loop arm is `continue`), also
leaving the viewport unchanged.  Both decoders are total functions, so no
input can crash the loop. -/
theorem c9_unrecognized_input_is_noop :
    (∀ (cfg : Mandel.Config) (b0 b1 b2 : Nat),
      b0 ≠ 113 → b0 ≠ 81 → b0 ≠ 43 → b0 ≠ 61 → b0 ≠ 45 → b0 ≠ 95 → b0 ≠ 27 →
      Opus4.step cfg (b0, b1, b2) = cfg) ∧
    (∀ (cfg : Mandel.Config) (b1 b2 : Nat),
      b1 ≠ 91 ∨ (b2 ≠ 65 ∧ b2 ≠ 66 ∧ b2 ≠ 67 ∧ b2 ≠ 68) →
      Opus4.step cfg (27, b1, b2) = cfg) ∧
    (∀ cfg : Mandel.Config, G5SR.applyKey cfg G5SR.Key.None = cfg) ∧
    G5SR.read_key_raw [] = G5SR.Key.None ∧
    (∀ (b : Nat) (rest : List Nat),
      b ≠ 3 → b ≠ 43 → b ≠ 61 → b ≠ 45 → b ≠ 95 → b ≠ 113 → b ≠ 81 → b ≠ 114 →
      b ≠ 82 → b ≠ 27 → b ≠ 104 → b ≠ 106 → b ≠ 107 → b ≠ 108 →
      G5SR.read_key_raw (b :: rest) = G5SR.Key.None) ∧
    (∀ rest : List Nat, rest.length < 2 →
      G5SR.read_key_raw (27 :: rest) = G5SR.Key.None) ∧
    (∀ (b1 b2 : Nat) (rest : List Nat),
      b1 ≠ 91 ∨ (b2 ≠ 65 ∧ b2 ≠ 66 ∧ b2 ≠ 67 ∧ b2 ≠ 68) →
      G5SR.read_key_raw (27 :: b1 :: b2 :: rest) = G5SR.Key.None) := by
  refine ⟨?_, ?_, fun _ => rfl, rfl, ?_, ?_, ?_⟩
  · intro cfg b0 b1 b2 h1 h2 h3 h4 h5 h6 h7
    simp only [Opus4.step]
    split_ifs <;> first | rfl | omega
  · intro cfg b1 b2 h
    rcases h with h | ⟨h65, h66, h67, h68⟩ <;>
      · simp only [Opus4.step]
        split_ifs <;> first | rfl | omega
  · intro b rest h1 h2 h3 h4 h5 h6 h7 h8 h9 h10 h11 h12 h13 h14
    simp only [G5SR.read_key_raw]
    split_ifs <;> first | rfl | omega
  · intro rest hlen
    match rest with
    | [] => rfl
    | [x] => rfl
    | x :: y :: r =>
      simp at hlen
      omega
  · intro b1 b2 rest h
    rcases h with h | ⟨h65, h66, h67, h68⟩ <;>
      · simp only [G5SR.read_key_raw]
        split_ifs <;> first | rfl | omega

/-- C9 witness: the theorem applied to the byte `'x'`, to the unrecognized
escape `ESC [ F`, to the bare truncated `ESC`, and to a bad bracket byte. -/
theorem c9_witness :
    Opus4.step Mandel.Config.default (120, 0, 0) = Mandel.Config.default ∧
    Opus4.step Mandel.Config.default (27, 40, 65) = Mandel.Config.default ∧
    G5SR.applyKey Mandel.Config.default G5SR.Key.None = Mandel.Config.default ∧
    G5SR.read_key_raw [120] = G5SR.Key.None ∧
    G5SR.read_key_raw [27] = G5SR.Key.None ∧
    G5SR.read_key_raw [27, 91, 70] = G5SR.Key.None :=
  ⟨c9_unrecognized_input_is_noop.1 Mandel.Config.default 120 0 0
      (by decide) (by decide) (by decide) (by decide) (by decide) (by decide)
      (by decide),
   c9_unrecognized_input_is_noop.2.1 Mandel.Config.default 40 65
      (Or.inl (by decide)),
   c9_unrecognized_input_is_noop.2.2.1 Mandel.Config.default,
   c9_unrecognized_input_is_noop.2.2.2.2.1 120 []
      (by decide) (by decide) (by decide) (by decide) (by decide) (by decide)
      (by decide) (by decide) (by decide) (by decide) (by decide) (by decide)
      (by decide) (by decide),
   c9_unrecognized_input_is_noop.2.2.2.2.2.1 [] (by decide),
   c9_unrecognized_input_is_noop.2.2.2.2.2.2 91 70 []
      (Or.inr ⟨by decide, by decide, by decide, by decide⟩)⟩

/-! ## C1 — concurrent reassembly is deterministic and matches sequential -/

namespace Parallel

theorem stepRange_eq (start stop step : Nat) :
    stepRange start stop step =
      if start < stop ∧ 0 < step then start :: stepRange (start + step) stop step
      else [] := by
  rw [stepRange]
  split <;> simp_all

theorem mem_stepRange_of (k : Nat) : ∀ (s stop step : Nat), 0 < step →
    s + k * step < stop → s + k * step ∈ stepRange s stop step := by
  induction k with
  | zero =>
    intro s stop step hstep h
    simp only [Nat.zero_mul, Nat.add_zero] at h ⊢
    rw [stepRange_eq, if_pos ⟨h, hstep⟩]
    exact List.mem_cons_self _ _
  | succ k ih =>
    intro s stop step hstep h
    have hs : s < stop := by
      have := Nat.le_add_right s ((k + 1) * step)
      omega
    rw [stepRange_eq, if_pos ⟨hs, hstep⟩]
    refine List.mem_cons_of_mem _ ?_
    have heq : s + (k + 1) * step = s + step + k * step := by ring
    rw [heq]
    exact ih (s + step) stop step hstep (by omega)

/-- Worker `y % threads` renders row `y`, so every row index below `height`
appears among the pool's messages, paired with its rendered row. -/
theorem mem_allWorkerMsgs (cfg : Mandel.Config) (threads y : Nat)
    (hthreads : 0 < threads) (hy : y < cfg.height) :
    (y, Mandel.renderRow cfg y) ∈ allWorkerMsgs cfg threads := by
  have hsplit : y % threads + y / threads * threads = y := by
    rw [Nat.mul_comm]
    exact Nat.mod_add_div y threads
  have hmem : y ∈ stepRange (y % threads) cfg.height threads := by
    have h := mem_stepRange_of (y / threads) (y % threads) cfg.height threads
      hthreads (by rw [hsplit]; exact hy)
    rw [hsplit] at h
    exact h
  rw [allWorkerMsgs, List.mem_flatten]
  refine ⟨workerMsgs cfg threads (y % threads), ?_, ?_⟩
  · exact List.mem_map_of_mem _ (List.mem_range.mpr (Nat.mod_lt y hthreads))
  · rw [workerMsgs]
    exact List.mem_map_of_mem _ hmem

/-- Every message any worker sends carries exactly the rendered text of its
row index. -/
theorem allWorkerMsgs_correct (cfg : Mandel.Config) (threads : Nat) :
    ∀ m ∈ allWorkerMsgs cfg threads, m.2 = Mandel.renderRow cfg m.1 := by
  intro m hm
  rw [allWorkerMsgs, List.mem_flatten] at hm
  obtain ⟨l, hl, hml⟩ := hm
  rw [List.mem_map] at hl
  obtain ⟨t, _, rfl⟩ := hl
  rw [workerMsgs, List.mem_map] at hml
  obtain ⟨y, _, rfl⟩ := hml
  rfl

theorem collect_length (msgs : List (Nat × List Char)) :
    ∀ init : List (Option (List Char)),
      (msgs.foldl applyMsg init).length = init.length := by
  induction msgs with
  | nil => intro init; rfl
  | cons m ms ih =>
    intro init
    rw [List.foldl_cons, ih]
    simp [applyMsg]

/-- After the collector has processed messages that all carry correct rows
and include row `y`, slot `y` holds `Some(row y)` — later duplicates can
only overwrite it with the same value. -/
theorem collect_getElem (cfg : Mandel.Config) (msgs : List (Nat × List Char)) :
    ∀ (init : List (Option (List Char))) (y : Nat), y < init.length →
      (∀ m ∈ msgs, m.2 = Mandel.renderRow cfg m.1) →
      ((y, Mandel.renderRow cfg y) ∈ msgs ∨
        init[y]? = some (some (Mandel.renderRow cfg y))) →
      (msgs.foldl applyMsg init)[y]? = some (some (Mandel.renderRow cfg y)) := by
  induction msgs with
  | nil =>
    intro init y hy hcorr hcov
    rcases hcov with h | h
    · simp at h
    · simpa using h
  | cons m ms ih =>
    intro init y hy hcorr hcov
    rw [List.foldl_cons]
    apply ih (applyMsg init m) y (by simpa [applyMsg] using hy)
    · intro m' hm'
      exact hcorr m' (List.mem_cons_of_mem _ hm')
    · rcases hcov with h | h
      · rcases List.mem_cons.mp h with heq | hmem
        · right
          rw [← heq]
          show (init.set y (some (Mandel.renderRow cfg y)))[y]? = _
          rw [List.getElem?_set]
          simp [hy]
        · left
          exact hmem
      · right
        by_cases hm1 : m.1 = y
        · have hval : m.2 = Mandel.renderRow cfg y := by
            rw [hcorr m (List.mem_cons_self m ms), hm1]
          show (init.set m.1 (some m.2))[y]? = _
          rw [hm1, hval, List.getElem?_set]
          simp [hy]
        · show (init.set m.1 (some m.2))[y]? = _
          rw [List.getElem?_set]
          simp only [if_neg hm1]
          exact h

/-- With correct and covering messages, the collector's line buffer is
exactly the sequential rows, each wrapped in `Some`. -/
theorem collectLines_eq (cfg : Mandel.Config) (msgs : List (Nat × List Char))
    (hcorr : ∀ m ∈ msgs, m.2 = Mandel.renderRow cfg m.1)
    (hcov : ∀ y < cfg.height, (y, Mandel.renderRow cfg y) ∈ msgs) :
    collectLines cfg msgs =
      ((List.range cfg.height).map (Mandel.renderRow cfg)).map some := by
  have hL : (collectLines cfg msgs).length = cfg.height := by
    rw [collectLines, collect_length]
    simp
  apply List.ext_getElem?
  intro i
  by_cases hi : i < cfg.height
  · rw [collectLines]
    rw [collect_getElem cfg msgs _ i (by simpa using hi) hcorr
      (Or.inl (hcov i hi))]
    rw [List.getElem?_map, List.getElem?_map, List.getElem?_range hi]
    rfl
  · rw [List.getElem?_eq_none (by rw [hL]; omega),
      List.getElem?_eq_none (by simp; omega)]

theorem assemble_map_some (l : List (List Char)) :
    assemble (l.map some) = l.flatten := by
  suffices h : ∀ acc : List Char,
      (l.map some).foldl
        (fun out o => match o with | some line => out ++ line | none => out) acc =
      acc ++ l.flatten by
    simpa [assemble] using h []
  induction l with
  | nil =>
    intro acc
    simp
  | cons x xs ih =>
    intro acc
    rw [List.map_cons, List.foldl_cons, ih (acc ++ x)]
    simp

end Parallel

/-- C1: for every viewport, for every worker count from 1 up to `height`,
and for every message arrival order (any permutation of what the strided
workers send over the channel), the concurrent renderer's reassembled frame
is byte-identical to the sequential renderer's output: rows are reassembled
strictly by row index before concatenation. -/
theorem c1_concurrent_render_deterministic (cfg : Mandel.Config)
    (threads : Nat) (msgs : List (Nat × List Char))
    (h1 : 1 ≤ threads) (h2 : threads ≤ cfg.height)
    (hperm : msgs.Perm (Parallel.allWorkerMsgs cfg threads)) :
    Parallel.renderPar cfg msgs = Mandel.render cfg := by
  have hcorr : ∀ m ∈ msgs, m.2 = Mandel.renderRow cfg m.1 := fun m hm =>
    Parallel.allWorkerMsgs_correct cfg threads m (hperm.mem_iff.mp hm)
  have hcov : ∀ y < cfg.height, (y, Mandel.renderRow cfg y) ∈ msgs := fun y hy =>
    hperm.mem_iff.mpr (Parallel.mem_allWorkerMsgs cfg threads y h1 hy)
  rw [Parallel.renderPar, Parallel.collectLines_eq cfg msgs hcorr hcov,
    Parallel.assemble_map_some]
  rfl

/-- C1 witness: a 2×2 viewport rendered by 2 workers whose messages arrive
in reversed (worst-case out-of-order) arrival order. -/
theorem c1_witness :
    (1 ≤ 2 ∧ 2 ≤ (⟨2, 2, 0, 0, 4, 1⟩ : Mandel.Config).height ∧
      ((Parallel.allWorkerMsgs ⟨2, 2, 0, 0, 4, 1⟩ 2).reverse).Perm
        (Parallel.allWorkerMsgs ⟨2, 2, 0, 0, 4, 1⟩ 2)) ∧
    Parallel.renderPar ⟨2, 2, 0, 0, 4, 1⟩
        ((Parallel.allWorkerMsgs ⟨2, 2, 0, 0, 4, 1⟩ 2).reverse) =
      Mandel.render ⟨2, 2, 0, 0, 4, 1⟩ :=
  ⟨⟨by decide, by decide, List.reverse_perm _⟩,
    c1_concurrent_render_deterministic ⟨2, 2, 0, 0, 4, 1⟩ 2 _
      (by decide) (by decide) (List.reverse_perm _)⟩
